import Mathlib

/-!
# Verification of the wiki contribution-statistics workflow

Shallow embedding, in Lean 4, of the parts of the `status` repository that
the specification's claims are about:

* `src/src/utils.py`          — `is_ip_address`
* `src/src/services/processor.py` — `EditorProcessor` (batching, row
  filtering, per-language tallies, cross-language aggregation)
* `src/src/services/analytics_db.py` — `DatabaseAnalytics.__init__`
* `src/src/services/database.py`  — credential loading and `_connect`
  retry/backoff loop
* `src/src/workflow/state_manager.py` — `StateManager`
* `src/src/services/reports.py`   — `ReportGenerator.generate_language_report`

Python dictionaries are modelled as insertion-ordered association lists
(`AssocD`); Python exceptions as an `Except PyErr` result; the remote
database as an oracle function supplied as an argument.  Machine-level
details (actual sockets, files, logging) are irrelevant to the claims and
are represented by the oracles' results.
-/

set_option linter.unusedVariables false

/-- The Python exceptions that the embedded code can raise. -/
inductive PyErr where
  /-- The `TypeError` (e.g. an unexpected keyword argument in a call). -/
  | typeError
  /-- The `ValueError` (e.g. `range()` arg 3 must not be zero). -/
  | valueError
  /-- The `AttributeError` (e.g. `list` object has no attribute `items`). -/
  | attributeError
  /-- The `KeyError` (missing dictionary key). -/
  | keyError
  /-- The `IndexError` (list index out of range). -/
  | indexError
  /-- The `FileNotFoundError`. -/
  | fileNotFoundError
  /-- Malformed-credentials `ValueError` is folded into `valueError`;
      `RuntimeError` for un-established connections. -/
  | runtimeError
  /-- The `pymysql.err.OperationalError` — transient infrastructure failure. -/
  | operationalError
  /-- The `pymysql.err.ProgrammingError` — query syntax error, never retried. -/
  | programmingError
deriving DecidableEq, Repr

/-! ## Python `dict` model

A Python `dict` is an insertion-ordered map.  We model it as an
association list: assignment to an existing key updates it in place,
assignment to a fresh key appends at the end.  `dict` equality in Python
ignores order, so all claims compare dictionaries by `dlookup`. -/

/-- Insertion-ordered association list standing for a Python `dict`. -/
abbrev AssocD (κ ν : Type) := List (κ × ν)

/-- The `d[k]` as an option (`None` when the key is absent). -/
def dlookup {κ ν : Type} [DecidableEq κ] (d : AssocD κ ν) (k : κ) : Option ν :=
  match d with
  | [] => none
  | (k', v) :: rest => if k' = k then some v else dlookup rest k

/-- Python `d[k] = v`: update in place when present, append when fresh. -/
def dset {κ ν : Type} [DecidableEq κ] (d : AssocD κ ν) (k : κ) (v : ν) : AssocD κ ν :=
  match d with
  | [] => [(k, v)]
  | (k', v') :: rest => if k' = k then (k, v) :: rest else (k', v') :: dset rest k v

/-- The merge step used all over the source:
`if e in d: d[e] += c else: d[e] = c`. -/
def dbump [DecidableEq κ] (d : AssocD κ Nat) (k : κ) (c : Nat) : AssocD κ Nat :=
  match dlookup d k with
  | some old => dset d k (old + c)
  | none => dset d k c

/-- An editor tally: Python `Dict[str, int]` from editor name to count. -/
abbrev Tally := AssocD String Nat

/-- The keys of the dict, in insertion order. -/
def dkeys {κ ν : Type} (d : AssocD κ ν) : List κ := d.map Prod.fst

/-- A Python dict never stores a key twice; association lists produced by
the embedded operations satisfy this. -/
abbrev keysNodup {κ ν : Type} (d : AssocD κ ν) : Prop := (dkeys d).Nodup

/-! ## `utils.is_ip_address`

```python
ipv4_pattern = r"^\d{1,3}\.\d{1,3}\.\d{1,3}\.\d{1,3}$"
ipv6_pattern = r"^([0-9a-fA-F]{0,4}:){7}[0-9a-fA-F]{0,4}$"
return bool(re.match(ipv4_pattern, text) or re.match(ipv6_pattern, text))
```

Both regexes are anchored (`re.match` anchors at the start, both end in
`$`).  In a digit/hex-digit run followed by a required delimiter, greedy
matching with backtracking is equivalent to: consume the maximal run,
require its length in range, then require the delimiter — consuming less
would leave a digit where the delimiter must be.  Python's `$` also
matches just before one trailing `"\n"`.  Python's `\d` covers Unicode
decimal digits; IP literals only ever use ASCII digits, which is what we
model. -/

/-- Consume the maximal leading run of ASCII digits; return its length
and the rest. -/
def parseDigits : List Char → Nat × List Char
  | [] => (0, [])
  | c :: rest =>
    if c.isDigit then
      let p := parseDigits rest
      (p.1 + 1, p.2)
    else (0, c :: rest)

/-- The `[0-9a-fA-F]` of the IPv6 pattern. -/
def isHexChar (c : Char) : Bool :=
  c.isDigit || ('a' ≤ c && c ≤ 'f') || ('A' ≤ c && c ≤ 'F')

/-- Consume the maximal leading run of hex digits; return its length and
the rest. -/
def parseHexRun : List Char → Nat × List Char
  | [] => (0, [])
  | c :: rest =>
    if isHexChar c then
      let p := parseHexRun rest
      (p.1 + 1, p.2)
    else (0, c :: rest)

/-- Python's `$`: end of string, or just before a single trailing newline. -/
def matchEnd (cs : List Char) : Bool := cs = [] || cs = ['\n']

/-- Match `remaining` octets of `\d{1,3}` separated by `.`, then `$`. -/
def ipv4Go : Nat → List Char → Bool
  | remaining, cs =>
    let p := parseDigits cs
    if p.1 = 0 ∨ 3 < p.1 then false
    else
      match remaining with
      | 0 => false
      | 1 => matchEnd p.2
      | r + 2 =>
        match p.2 with
        | '.' :: rest => ipv4Go (r + 1) rest
        | _ => false

/-- Match `remaining` groups of `[0-9a-fA-F]{0,4}` separated by `:`,
then `$` (the source's pattern is the full 8-group form only). -/
def ipv6Go : Nat → List Char → Bool
  | remaining, cs =>
    let p := parseHexRun cs
    if 4 < p.1 then false
    else
      match remaining with
      | 0 => false
      | 1 => matchEnd p.2
      | r + 2 =>
        match p.2 with
        | ':' :: rest => ipv6Go (r + 1) rest
        | _ => false

/-- The `utils.is_ip_address`. -/
def is_ip_address (text : String) : Bool :=
  ipv4Go 4 text.data || ipv6Go 8 text.data

/-! ## Row filtering (`EditorProcessor`)

Both processing strategies run the identical per-row loop:

```python
for row in results:
    actor_name = row.get("actor_name", "")
    count = row.get("count", 0)
    if is_ip_address(actor_name): continue
    if "bot" in actor_name.lower(): continue
    editors[actor_name] = count
```
-/

/-- One query result row, with the `row.get` defaults already applied
(`actor_name` defaults to `""`, `count` to `0`). -/
structure Row where
  actor_name : String
  count : Nat
deriving DecidableEq, Repr

/-- The `needle` occurs as a contiguous substring of `hay` (Python `in`). -/
def hasSubstr (needle : List Char) : List Char → Bool
  | [] => needle.isEmpty
  | c :: rest => needle.isPrefixOf (c :: rest) || hasSubstr needle rest

/-- The `s.lower()` as a character list.  Python lowercasing is Unicode-wide;
only `'B'`, `'O'`, `'T'` lowercase to `'b'`, `'o'`, `'t'`, so the
ASCII-level `Char.toLower` is faithful for the `"bot"` test. -/
def lowerData (s : String) : List Char := s.data.map Char.toLower

/-- The `"bot" in actor_name.lower()`. -/
def containsBot (s : String) : Bool := hasSubstr ['b', 'o', 't'] (lowerData s)

/-- The row is skipped by the filters (IP literal or bot name). -/
def rowExcluded (r : Row) : Bool := is_ip_address r.actor_name || containsBot r.actor_name

/-- The per-row loop: fold the rows into the running `editors` dict.
Note the update is plain assignment `editors[actor_name] = count`. -/
def processRows (rows : List Row) (editors : Tally) : Tally :=
  match rows with
  | [] => editors
  | r :: rest =>
    if rowExcluded r then processRows rest editors
    else processRows rest (dset editors r.actor_name r.count)

example : is_ip_address "192.168.1.1" = true := by decide
example : is_ip_address "Username" = false := by decide
example : is_ip_address "::1" = false := by decide
example : is_ip_address "2001:0db8:0000:0000:0000:0000:0000:0001" = true := by decide
example : containsBot "SomeBot" = true := by decide
example : containsBot "Alice" = false := by decide
example :
    processRows [⟨"192.0.2.1", 5⟩, ⟨"Alice", 10⟩] [] = [("Alice", 10)] := by decide

/-! ## `EditorProcessor` strategies

The remote database is modelled by oracles: `db` maps a batch of titles
to the rows `db.execute` returns for the standard per-batch editors
query (language and year are fixed by the enclosing call), `openConn`
is the outcome of `DatabaseAnalytics.__enter__`, and `dbArEn` the rows
of the single ar/en query. -/

/-- The `_batch_titles` slicing loop, bounded by an explicit fuel so that it
is structurally recursive; `batchTitles` instantiates the fuel with
`titles.length`, which the slicing can never exhaust. -/
def chunksGo (k : Nat) : Nat → List String → List (List String)
  | 0, _ => []
  | _, [] => []
  | fuel + 1, t :: ts => ((t :: ts).take k) :: chunksGo k fuel ((t :: ts).drop k)

/-- The `EditorProcessor._batch_titles(titles, batch_size)`:
`titles[i : i + batch_size]` for `i in range(0, len(titles), batch_size)`.
A zero step makes Python's `range` raise `ValueError`. -/
def batch_titles (titles : List String) (batch_size : Nat) :
    Except PyErr (List (List String)) :=
  if batch_size = 0 then .error .valueError
  else .ok (chunksGo batch_size titles.length titles)

/-- The per-batch loop of `process_language_patch`: query each batch in
turn, folding the filtered rows into the running `editors` dict; any
query failure aborts the whole language. -/
def processBatches (db : List String → Except PyErr (List Row)) :
    List (List String) → Tally → Except PyErr Tally
  | [], editors => .ok editors
  | b :: bs, editors =>
    match db b with
    | .error e => .error e
    | .ok rows => processBatches db bs (processRows rows editors)

/-- The `EditorProcessor.process_language_patch(lang, titles, year, batch_size)`.
`lang` and `year` only parameterize the query text, which the oracle
already encodes, but are kept for signature fidelity. -/
def process_language_patch (lang : String) (titles : List String) (year : String)
    (batch_size : Nat) (openConn : Except PyErr Unit)
    (db : List String → Except PyErr (List Row)) : Except PyErr Tally :=
  match openConn with
  | .error e => .error e
  | .ok _ =>
    match batch_titles titles batch_size with
    | .error e => .error e
    | .ok batches => processBatches db batches []

/-- A Python call `DatabaseAnalytics(site_code, **kwargs)`.  The source's
`__init__(self, site_code)` accepts no keyword argument at all, so any
keyword argument raises `TypeError` before the body runs. -/
def databaseAnalyticsCall (site_code : String) (kwargs : List (String × Nat)) :
    Except PyErr Unit :=
  if kwargs.isEmpty then .ok () else .error .typeError

/-- The `EditorProcessor.process_language_ar_en(lang, year)`.  The body
executes `with DatabaseAnalytics(lang, timeout=3_000) as db`, so the
constructor call is reached before the connection is opened or the
query runs; afterwards the standard row-filter loop would run on the
query's rows. -/
def process_language_ar_en (lang : String) (year : String)
    (openConn : Except PyErr Unit) (dbArEn : Except PyErr (List Row)) :
    Except PyErr Tally :=
  match databaseAnalyticsCall lang [("timeout", 3000)] with
  | .error e => .error e
  | .ok _ =>
    match openConn with
    | .error e => .error e
    | .ok _ =>
      match dbArEn with
      | .error e => .error e
      | .ok rows => .ok (processRows rows [])

/-- The `EditorProcessor.process_language(lang, titles, year, batch_size)`:
dispatch to the direct strategy for `"ar"`/`"en"`, else batched. -/
def process_language (lang : String) (titles : List String) (year : String)
    (batch_size : Nat) (openConn : Except PyErr Unit)
    (db : List String → Except PyErr (List Row))
    (dbArEn : Except PyErr (List Row)) : Except PyErr Tally :=
  if lang = "ar" ∨ lang = "en" then process_language_ar_en lang year openConn dbArEn
  else process_language_patch lang titles year batch_size openConn db

/-- The additive merge loop the source repeats in
`workflow/step2_process_languages._process_titles_for_language` and in
`EditorProcessor.aggregate_editors`:
`for e, c in ed.items(): if e in g: g[e] += c else: g[e] = c`. -/
def mergeCounts (g : Tally) (ed : Tally) : Tally :=
  match ed with
  | [] => g
  | (e, c) :: rest => mergeCounts (dbump g e c) rest

/-- The outer loop of `aggregate_editors`: merge each language's tally
into the running `global_editors` dict. -/
def aggregate_editors_go (g : Tally) : List Tally → Tally
  | [] => g
  | ed :: rest => aggregate_editors_go (mergeCounts g ed) rest

/-- The `EditorProcessor.aggregate_editors(all_editors)`: start from the
empty `global_editors = {}` and merge every per-language tally into it.
The language keys are only iterated over, so the input is the list of
per-language tallies in iteration order. -/
def aggregate_editors (all_editors : List Tally) : Tally :=
  aggregate_editors_go [] all_editors

/-! ## `workflow/state_manager.StateManager`

State is a JSON document mutated in place and written through after
every mutation; persistence itself is I/O and does not change the
in-memory value, so each method is embedded as a pure state
transformer.  `step_data` keys are the strings `str(step)` and
`f"{step}_partial"`; since `str`/`int` round-trip on naturals, the two
key shapes are modelled as a sum type with `stepOf` playing the role of
`int(key.split("_")[0])`. -/

/-- A `step_data` key: `str(step)` for whole-step artifacts,
`f"{step}_partial"` for in-step checkpoints. -/
inductive StepKey where
  | whole (n : Nat)
  | part (n : Nat)
deriving DecidableEq, Repr

/-- The `int(key.split("_")[0])`: the step number a key belongs to. -/
def stepOf : StepKey → Nat
  | .whole n => n
  | .part n => n

/-- Opaque step artifact (`data: Any = None`). -/
abbrev PData := Option Nat

/-- The persisted workflow state (timestamps are opaque to every claim
and `started_at` is tracked as set/unset). -/
structure WfState where
  currentStep : Nat
  completedSteps : List Nat
  stepData : AssocD StepKey PData
  startedAt : Bool
  errors : List (Nat × String)
deriving DecidableEq, Repr

/-- The `StateManager._create_empty_state`. -/
def emptyState : WfState :=
  { currentStep := 0, completedSteps := [], stepData := [],
    startedAt := false, errors := [] }

/-- The `StateManager.mark_step_started`. -/
def markStepStarted (step : Nat) (s : WfState) : WfState :=
  { s with currentStep := step, startedAt := true }

/-- The `StateManager.mark_step_completed(step, data)`:
append `step` to `completed_steps` unless present, store the artifact
under the whole-step key, set `current_step = step + 1`. -/
def markStepCompleted (step : Nat) (data : PData) (s : WfState) : WfState :=
  { s with
    completedSteps :=
      if step ∈ s.completedSteps then s.completedSteps else s.completedSteps ++ [step],
    stepData := dset s.stepData (StepKey.whole step) data,
    currentStep := step + 1 }

/-- The `StateManager.set_partial_data(step, data)`. -/
def setPartData (step : Nat) (data : PData) (s : WfState) : WfState :=
  { s with stepData := dset s.stepData (StepKey.part step) data }

/-- The `StateManager.clear_partial_data(step)`: delete the key when
present (deleting every occurrence of a key from a dict). -/
def clearPartData (step : Nat) (s : WfState) : WfState :=
  { s with stepData := s.stepData.filter (fun kv => kv.1 ≠ StepKey.part step) }

/-- The `StateManager.log_error(step, error)`. -/
def logError (step : Nat) (msg : String) (s : WfState) : WfState :=
  { s with errors := s.errors ++ [(step, msg)] }

/-- The `StateManager.reset`. -/
def resetState (s : WfState) : WfState := emptyState

/-- The `StateManager.reset_from_step(step)`: keep only completed steps
`< step`, set `current_step = step`, and delete every `step_data` key
whose step number is `>= step` (collecting `keys_to_remove` and
deleting each is retaining exactly the entries with a smaller step). -/
def resetFromStep (step : Nat) (s : WfState) : WfState :=
  { s with
    completedSteps := s.completedSteps.filter (fun m => m < step),
    currentStep := step,
    stepData := s.stepData.filter (fun kv => stepOf kv.1 < step) }

/-- Python `max` over a list of naturals; the source only calls it on
non-empty lists, where the `0` seed is neutral. -/
def pyMax (l : List Nat) : Nat := l.foldl Nat.max 0

/-- The `StateManager.get_resume_point`:
`1` when nothing is completed, else `max(completed_steps) + 1`. -/
def get_resume_point (s : WfState) : Nat :=
  if s.completedSteps.isEmpty then 1 else pyMax s.completedSteps + 1

/-- States reachable from a fresh run through the `StateManager`
interface. -/
inductive Reachable : WfState → Prop
  | empty : Reachable emptyState
  | started {s} (n : Nat) : Reachable s → Reachable (markStepStarted n s)
  | completed {s} (n : Nat) (d : PData) : Reachable s → Reachable (markStepCompleted n d s)
  | partSet {s} (n : Nat) (d : PData) : Reachable s → Reachable (setPartData n d s)
  | partCleared {s} (n : Nat) : Reachable s → Reachable (clearPartData n s)
  | errorLogged {s} (n : Nat) (m : String) : Reachable s → Reachable (logError n m s)
  | didReset {s} : Reachable s → Reachable (resetState s)
  | resetFrom {s} (n : Nat) : Reachable s → Reachable (resetFromStep n s)

/-! ## `services/database.Database._connect`

`_load_credentials` parses `~/replica.my.cnf`; `_connect` then tries
`pymysql.connect` up to `MAX_RETRIES` times, sleeping `2**attempt`
seconds after a failed attempt `attempt < MAX_RETRIES`.  Only
`OperationalError` is caught; `ProgrammingError` (or anything else)
propagates immediately.  The network is an oracle from the attempt
number to its outcome; the value returned on success is the total time
slept, standing for the mockable clock of the spec. -/

/-- The `config.MAX_RETRIES`. -/
def MAX_RETRIES : Nat := 3

/-- Outcome of one `pymysql.connect` attempt. -/
inductive AttemptResult where
  | success
  | operationalError
  | programmingError
deriving DecidableEq, Repr

/-- Python `str.strip()`: drop leading and trailing whitespace. -/
def pyStrip (cs : List Char) : List Char :=
  ((cs.dropWhile Char.isWhitespace).reverse.dropWhile Char.isWhitespace).reverse

/-- Python `str.split(sep)` for a one-character separator (as in
`line.split("=")`): maximal split, empty pieces kept. -/
def splitOnChar (sep : Char) : List Char → List (List Char)
  | [] => [[]]
  | c :: rest =>
    let r := splitOnChar sep rest
    if c = sep then [] :: r
    else
      match r with
      | [] => [[c]]
      | h :: t => (c :: h) :: t

/-- The line loop of `_load_credentials`: strip each line, lines
starting with `"user"`/`"password"` assign `line.split("=")[1].strip()`
(an absent `"="` would make the `[1]` index raise). -/
def parseCredLines : List (List Char) → Option (List Char) → Option (List Char) →
    Except PyErr (List Char × List Char)
  | [], user, password =>
    -- `if "user" not in credentials or "password" not in credentials`
    match user, password with
    | some u, some p => .ok (u, p)
    | _, _ => .error .valueError
  | line :: rest, user, password =>
    let l := pyStrip line
    if "user".data.isPrefixOf l then
      match (splitOnChar '=' l).get? 1 with
      | none => .error .indexError
      | some v => parseCredLines rest (some (pyStrip v)) password
    else if "password".data.isPrefixOf l then
      match (splitOnChar '=' l).get? 1 with
      | none => .error .indexError
      | some v => parseCredLines rest user (some (pyStrip v))
    else parseCredLines rest user password

/-- The `Database._load_credentials`: `none` models a missing credential
file, `some lines` its contents (each line a character list). -/
def load_credentials (file : Option (List (List Char))) :
    Except PyErr (List Char × List Char) :=
  match file with
  | none => .error .fileNotFoundError
  | some lines => parseCredLines lines none none

/-- The `for attempt in range(1, MAX_RETRIES + 1)` loop of `_connect`.
`remaining` is the number of loop iterations left (`MAX_RETRIES + 1 -
attempt`), so the recursion is structural; the loop itself always
returns or raises before the range is exhausted.  `slept` accumulates
the seconds passed to `time.sleep`. -/
def connectGo (outcome : Nat → AttemptResult) : Nat → Nat → Nat → Except PyErr Nat
  | 0, _, _ => .error .operationalError
  | remaining + 1, attempt, slept =>
    match outcome attempt with
    | .success => .ok slept
    | .programmingError => .error .programmingError
    | .operationalError =>
      if attempt < MAX_RETRIES then
        connectGo outcome remaining (attempt + 1) (slept + 2 ^ attempt)
      else .error .operationalError

/-- The `Database._connect`: load credentials, then the retry loop starting
at attempt `1` with nothing slept. -/
def db_connect (file : Option (List (List Char))) (outcome : Nat → AttemptResult) :
    Except PyErr Nat :=
  match load_credentials file with
  | .error e => .error e
  | .ok _ => connectGo outcome MAX_RETRIES 1 0

/-! ## `services/reports.ReportGenerator.generate_language_report`

```python
output_file = Path(OUTPUT_DIRS["reports"]) / f"{lang}.wiki"   # line 113
sorted_editors = sorted(editors.items(), key=lambda x: x[1], reverse=True)
...
links = len(load_language_titles(lang, OUTPUT_DIRS["titles"]))  # line 121
...
for i, (user, count) in enumerate(sorted_editors.items(), start=1):  # line 128
```

The function performs two config subscripts in order: `"reports"` at
line 113 (present in the shipped config) and `"titles"` at line 121
(absent — so every call with the shipped config raises `KeyError`
there, before the titles file is read).  `sorted` returns a *list*, so
`sorted_editors.items()` at line 128 would be an `AttributeError`, but
it can only be reached under a config that has both keys. -/

/-- The `config.OUTPUT_DIRS` — its keys are `sqlresults`, `languages`,
`editors` and `reports`; values are paths under `DATA_DIR`. -/
def OUTPUT_DIRS : AssocD String String :=
  [("sqlresults", "data/sqlresults"), ("languages", "data/languages"),
   ("editors", "data/editors"), ("reports", "data/reports")]

/-- Stable insertion of an entry into a list sorted by descending
count: walk past entries with a count `>=` the new one. -/
def insertByCountDesc (x : String × Nat) : List (String × Nat) → List (String × Nat)
  | [] => [x]
  | y :: ys => if y.2 < x.2 then x :: y :: ys else y :: insertByCountDesc x ys

/-- The `sorted(editors.items(), key=lambda x: x[1], reverse=True)` —
Python's stable sort, left to right. -/
def pySortedByCountDesc (l : List (String × Nat)) : List (String × Nat) :=
  l.foldl (fun acc x => insertByCountDesc x acc) []

/-- Accessing `.items()` on a Python *list*: always `AttributeError`. -/
def pyListItems (l : List (String × Nat)) : Except PyErr (List (String × Nat)) :=
  .error .attributeError

/-- The `ReportGenerator.generate_language_report(lang, editors, year)`.
`outputDirs` is the `OUTPUT_DIRS` the module imported and `loadTitles`
the filesystem oracle behind `load_language_titles(lang, dir)`.  The
report text construction and the final file write are pure string
building and I/O with no influence on control flow, so they are elided;
the function returns `()` only if the loop over
`sorted_editors.items()` could be entered. -/
def generate_language_report (outputDirs : AssocD String String) (lang : String)
    (editors : Tally) (year : String)
    (loadTitles : String → Except PyErr (List String)) : Except PyErr Unit :=
  -- line 113: `output_file = Path(OUTPUT_DIRS["reports"]) / f"{lang}.wiki"` —
  -- the first subscript evaluated, raising `KeyError` if `"reports"` is absent
  match dlookup outputDirs "reports" with
  | none => .error .keyError
  | some _output_dir =>
    let sorted_editors := pySortedByCountDesc editors
    -- line 121: `OUTPUT_DIRS["titles"]` evaluated before the titles load
    match dlookup outputDirs "titles" with
    | none => .error .keyError
    | some dir =>
      match loadTitles dir with
      | .error e => .error e
      | .ok _titles =>
        match pyListItems sorted_editors with
        | .error e => .error e
        | .ok _ => .ok ()

/-! ## Derived notions used to state the claims -/

/-- Concatenation of the per-batch result rows, in batch order; errors
abort, mirroring the abort-on-any-batch-failure behaviour. -/
def gatherRows (db : List String → Except PyErr (List Row)) :
    List (List String) → Except PyErr (List Row)
  | [] => .ok []
  | b :: bs =>
    match db b with
    | .error e => .error e
    | .ok rows =>
      match gatherRows db bs with
      | .error e => .error e
      | .ok rest => .ok (rows ++ rest)

/-- Total count recorded for editor `e` in a tally, entry by entry
(equals `tally.get(e, 0)` whenever the keys are duplicate-free). -/
def sumCounts (ed : Tally) (e : String) : Nat :=
  (ed.map (fun kv => if kv.1 = e then kv.2 else 0)).sum

/-- The `sum(t.get(e, 0) for t in ts)`: editor `e`'s total over a list of
tallies, absent editors contributing `0`. -/
def tallySum (ts : List Tally) (e : String) : Nat :=
  (ts.map (fun ed => (dlookup ed e).getD 0)).sum

example :
    process_language_patch "fr" ["T1", "T2"] "2024" 1 (.ok ())
      (fun b => if b = ["T1"] then .ok [⟨"Alice", 5⟩] else .ok [⟨"Alice", 3⟩]) =
      .ok [("Alice", 3)] := by rfl

example :
    process_language "fr" ["T"] "2024" 1 (.ok ())
      (fun _ => .ok [⟨"::1", 5⟩]) (.ok []) = .ok [("::1", 5)] := by rfl

example :
    db_connect (some ["user = u".data, "password = p".data])
      (fun i => if i ≤ 2 then AttemptResult.operationalError else .success) =
      .ok 6 := by rfl

example : (∑ i in Finset.Icc 1 2, 2 ^ i) = 6 := by decide

example :
    generate_language_report OUTPUT_DIRS "en" [("Alice", 10)] "2024"
      (fun _ => .ok ["Medicine"]) = .error .keyError := by rfl

/-! ## Lemmas about the dict model -/

theorem dlookup_dset {κ ν : Type} [DecidableEq κ] (d : AssocD κ ν) (k k' : κ) (v : ν) :
    dlookup (dset d k v) k' = if k = k' then some v else dlookup d k' := by
  induction d with
  | nil => simp [dset, dlookup]
  | cons kv rest ih =>
    obtain ⟨k0, v0⟩ := kv
    by_cases h0 : k0 = k
    · subst h0
      by_cases h1 : k0 = k'
      · subst h1; simp [dset, dlookup]
      · simp [dset, dlookup, h1]
    · by_cases h1 : k0 = k'
      · subst h1
        have hk : ¬k = k0 := fun h => h0 h.symm
        simp [dset, dlookup, h0, hk]
      · simp [dset, dlookup, h0, h1, ih]

theorem dlookup_dbump [DecidableEq κ] (d : AssocD κ Nat) (k k' : κ) (c : Nat) :
    dlookup (dbump d k c) k' =
      if k = k' then some ((dlookup d k').getD 0 + c) else dlookup d k' := by
  unfold dbump
  by_cases hk : k = k'
  · subst hk
    cases h : dlookup d k with
    | none => simp [h, dlookup_dset]
    | some old => simp [h, dlookup_dset]
  · cases h : dlookup d k with
    | none => simp [dlookup_dset, hk]
    | some old => simp [dlookup_dset, hk]

theorem mem_dkeys_iff_isSome {κ ν : Type} [DecidableEq κ] (d : AssocD κ ν) (k : κ) :
    k ∈ dkeys d ↔ (dlookup d k).isSome := by
  induction d with
  | nil => simp [dkeys, dlookup]
  | cons kv rest ih =>
    obtain ⟨k0, v0⟩ := kv
    by_cases h0 : k0 = k
    · subst h0; simp [dkeys, dlookup]
    · have hk : ¬k = k0 := fun h => h0 h.symm
      simp only [dkeys, List.map_cons, List.mem_cons]
      have hl : dlookup ((k0, v0) :: rest) k = dlookup rest k := by
        simp [dlookup, h0]
      rw [hl]
      simp only [dkeys] at ih
      exact ⟨fun h => h.elim (fun h => absurd h hk) ih.1, fun h => Or.inr (ih.2 h)⟩

theorem dlookup_eq_none_of_not_mem {κ ν : Type} [DecidableEq κ] (d : AssocD κ ν) (k : κ)
    (h : k ∉ dkeys d) : dlookup d k = none := by
  cases hl : dlookup d k with
  | none => rfl
  | some v =>
    exact absurd ((mem_dkeys_iff_isSome d k).2 (by simp [hl])) h

/-! ## Lemmas about the row filters -/

theorem dlookup_processRows_of_excluded (rows : List Row) (d : Tally) (name : String)
    (hex : is_ip_address name || containsBot name) :
    dlookup (processRows rows d) name = dlookup d name := by
  induction rows generalizing d with
  | nil => rfl
  | cons r rest ih =>
    by_cases hr : rowExcluded r
    · simp [processRows, hr, ih]
    · simp [processRows, hr, ih, dlookup_dset]
      intro hname
      subst hname
      exact absurd hex (by simpa [rowExcluded] using hr)

theorem processBatches_ok_excluded (db : List String → Except PyErr (List Row))
    (bs : List (List String)) (d t : Tally) (name : String)
    (hok : processBatches db bs d = .ok t)
    (hex : is_ip_address name || containsBot name) :
    dlookup t name = dlookup d name := by
  induction bs generalizing d with
  | nil =>
    simp [processBatches] at hok
    subst hok; rfl
  | cons b rest ih =>
    unfold processBatches at hok
    cases hdb : db b with
    | error e => rw [hdb] at hok; cases hok
    | ok rows =>
      rw [hdb] at hok
      rw [ih _ hok, dlookup_processRows_of_excluded _ _ _ hex]

/-- The `hasSubstr` holds exactly when the needle is a contiguous factor. -/
theorem hasSubstr_iff (needle hay : List Char) :
    hasSubstr needle hay = true ↔ ∃ pre post, hay = pre ++ needle ++ post := by
  induction hay with
  | nil =>
    simp only [hasSubstr, List.isEmpty_iff]
    constructor
    · intro h; exact ⟨[], [], by simp [h]⟩
    · rintro ⟨pre, post, h⟩
      rcases List.append_eq_nil.1 (List.append_eq_nil.1 h.symm).1 with ⟨-, h2⟩
      exact h2
  | cons c rest ih =>
    simp only [hasSubstr, Bool.or_eq_true]
    constructor
    · rintro (h | h)
      · rcases List.isPrefixOf_iff_prefix.1 h with ⟨post, hpost⟩
        exact ⟨[], post, by simp [hpost.symm]⟩
      · rcases ih.1 h with ⟨pre, post, hp⟩
        exact ⟨c :: pre, post, by simp [hp]⟩
    · rintro ⟨pre, post, hp⟩
      cases pre with
      | nil =>
        left
        exact List.isPrefixOf_iff_prefix.2 ⟨post, by simpa using hp.symm⟩
      | cons c0 pre' =>
        right
        apply ih.2
        have hp' : c :: rest = c0 :: (pre' ++ needle ++ post) := hp
        injection hp' with h1 h2
        exact ⟨pre', post, h2⟩

/-! ## Lemmas about batching -/

theorem processRows_append (r1 r2 : List Row) (d : Tally) :
    processRows (r1 ++ r2) d = processRows r2 (processRows r1 d) := by
  induction r1 generalizing d with
  | nil => rfl
  | cons r rest ih =>
    by_cases hr : rowExcluded r <;> simp [processRows, hr, ih]

theorem processBatches_ok_gather (db : List String → Except PyErr (List Row))
    (bs : List (List String)) (d t : Tally)
    (hok : processBatches db bs d = .ok t) :
    ∃ rows, gatherRows db bs = .ok rows ∧ t = processRows rows d := by
  induction bs generalizing d with
  | nil =>
    simp [processBatches] at hok
    exact ⟨[], rfl, by simp [processRows, hok]⟩
  | cons b rest ih =>
    unfold processBatches at hok
    cases hdb : db b with
    | error e => rw [hdb] at hok; cases hok
    | ok rows0 =>
      rw [hdb] at hok
      obtain ⟨rest0, hg, ht⟩ := ih _ hok
      refine ⟨rows0 ++ rest0, ?_, ?_⟩
      · simp [gatherRows, hdb, hg]
      · rw [ht, processRows_append]

/-- The `chunksGo` ignores any fuel beyond the list length. -/
theorem chunksGo_fuel (k : Nat) (hk : k ≠ 0) :
    ∀ fuel₁ fuel₂ l, l.length ≤ fuel₁ → l.length ≤ fuel₂ →
      chunksGo k fuel₁ l = chunksGo k fuel₂ l := by
  intro fuel₁
  induction fuel₁ with
  | zero =>
    intro fuel₂ l h1 h2
    have : l = [] := List.eq_nil_of_length_eq_zero (Nat.le_zero.1 h1)
    subst this
    cases fuel₂ <;> rfl
  | succ f ih =>
    intro fuel₂ l h1 h2
    cases l with
    | nil => cases fuel₂ <;> rfl
    | cons x xs =>
      cases fuel₂ with
      | zero => simp at h2
      | succ f2 =>
        simp only [chunksGo]
        congr 1
        have hd : ((x :: xs).drop k).length = xs.length + 1 - k := by
          simp [List.length_drop]
        have hk1 : 1 ≤ k := Nat.one_le_iff_ne_zero.2 hk
        simp only [List.length_cons] at h1 h2
        apply ih
        · rw [hd]; omega
        · rw [hd]; omega

/-! ## Lemmas about the additive merge -/

theorem sumCounts_eq_zero_of_not_mem (ed : Tally) (e : String) (h : e ∉ dkeys ed) :
    sumCounts ed e = 0 := by
  induction ed with
  | nil => rfl
  | cons kv rest ih =>
    obtain ⟨k, c⟩ := kv
    simp only [dkeys, List.map_cons, List.mem_cons, not_or] at h
    have hk : ¬k = e := fun hk => h.1 hk.symm
    simp only [sumCounts, List.map_cons, List.sum_cons, if_neg hk]
    simpa [sumCounts, dkeys] using ih h.2

theorem dlookup_mergeCounts (g ed : Tally) (e : String) :
    dlookup (mergeCounts g ed) e =
      if e ∈ dkeys ed then some ((dlookup g e).getD 0 + sumCounts ed e)
      else dlookup g e := by
  induction ed generalizing g with
  | nil => simp [mergeCounts, dkeys]
  | cons kv rest ih =>
    obtain ⟨k, c⟩ := kv
    have hstep : mergeCounts g ((k, c) :: rest) = mergeCounts (dbump g k c) rest := rfl
    rw [hstep, ih]
    have hsum : sumCounts ((k, c) :: rest) e = (if k = e then c else 0) + sumCounts rest e := by
      simp [sumCounts]
    have hmem : e ∈ dkeys ((k, c) :: rest) ↔ e = k ∨ e ∈ dkeys rest := by
      simp [dkeys]
    by_cases hm : e ∈ dkeys rest
    · rw [if_pos hm, dlookup_dbump]
      by_cases hke : k = e
      · rw [if_pos hke, if_pos (hmem.2 (Or.inl hke.symm)), hsum, if_pos hke]
        simp [Nat.add_assoc]
      · rw [if_neg hke, if_pos (hmem.2 (Or.inr hm)), hsum, if_neg hke]
        simp
    · rw [if_neg hm, dlookup_dbump]
      by_cases hke : k = e
      · rw [if_pos hke, if_pos (hmem.2 (Or.inl hke.symm)), hsum, if_pos hke,
          sumCounts_eq_zero_of_not_mem rest e hm]
        simp
      · rw [if_neg hke, if_neg (fun h => (hmem.1 h).elim (fun h => hke h.symm) hm)]

theorem mem_dkeys_mergeCounts (g ed : Tally) (e : String) :
    e ∈ dkeys (mergeCounts g ed) ↔ e ∈ dkeys g ∨ e ∈ dkeys ed := by
  rw [mem_dkeys_iff_isSome, dlookup_mergeCounts]
  by_cases hm : e ∈ dkeys ed
  · simp [hm]
  · simp [hm, mem_dkeys_iff_isSome]

theorem getD_mergeCounts (g ed : Tally) (e : String) :
    (dlookup (mergeCounts g ed) e).getD 0 = (dlookup g e).getD 0 + sumCounts ed e := by
  rw [dlookup_mergeCounts]
  by_cases hm : e ∈ dkeys ed
  · simp [hm]
  · simp [hm, sumCounts_eq_zero_of_not_mem ed e hm]

theorem dkeys_dset {κ ν : Type} [DecidableEq κ] (d : AssocD κ ν) (k : κ) (v : ν) :
    dkeys (dset d k v) = if k ∈ dkeys d then dkeys d else dkeys d ++ [k] := by
  induction d with
  | nil => simp [dset, dkeys]
  | cons kv rest ih =>
    obtain ⟨k0, v0⟩ := kv
    by_cases h0 : k0 = k
    · subst h0
      simp [dset, dkeys]
    · have hk : ¬k = k0 := fun h => h0 h.symm
      have hstep : dset ((k0, v0) :: rest) k v = (k0, v0) :: dset rest k v := by
        simp [dset, h0]
      rw [hstep]
      have hkeys : dkeys ((k0, v0) :: dset rest k v) = k0 :: dkeys (dset rest k v) := rfl
      rw [hkeys, ih]
      by_cases hm : k ∈ dkeys rest
      · rw [if_pos hm, if_pos (by simp [dkeys]; right; simpa [dkeys] using hm)]
        rfl
      · rw [if_neg hm, if_neg (by simp [dkeys, hk]; simpa [dkeys] using hm)]
        rfl

theorem keysNodup_dset {κ ν : Type} [DecidableEq κ] (d : AssocD κ ν) (k : κ) (v : ν)
    (h : keysNodup d) : keysNodup (dset d k v) := by
  unfold keysNodup at h ⊢
  rw [dkeys_dset]
  by_cases hm : k ∈ dkeys d
  · simpa [hm] using h
  · simp only [hm, if_false]
    refine List.Nodup.append h (List.nodup_singleton k) ?_
    intro a ha hak
    rw [List.mem_singleton] at hak
    subst hak
    exact hm ha

theorem keysNodup_dbump (d : AssocD String Nat) (k : String) (c : Nat)
    (h : keysNodup d) : keysNodup (dbump d k c) := by
  unfold dbump
  cases dlookup d k with
  | none => exact keysNodup_dset d k c h
  | some old => exact keysNodup_dset d k (old + c) h

theorem keysNodup_mergeCounts (g ed : Tally) (h : keysNodup g) :
    keysNodup (mergeCounts g ed) := by
  induction ed generalizing g with
  | nil => exact h
  | cons kv rest ih =>
    obtain ⟨k, c⟩ := kv
    exact ih _ (keysNodup_dbump g k c h)

theorem sumCounts_eq_getD (ed : Tally) (e : String) (h : keysNodup ed) :
    sumCounts ed e = (dlookup ed e).getD 0 := by
  induction ed with
  | nil => rfl
  | cons kv rest ih =>
    obtain ⟨k, c⟩ := kv
    have h' : k ∉ dkeys rest ∧ keysNodup rest := by
      have hh := h
      unfold keysNodup dkeys at hh
      rw [List.map_cons, List.nodup_cons] at hh
      exact ⟨hh.1, hh.2⟩
    by_cases hke : k = e
    · subst hke
      have h0 : sumCounts rest k = 0 := sumCounts_eq_zero_of_not_mem rest k h'.1
      have hs : sumCounts ((k, c) :: rest) k = c + sumCounts rest k := by
        simp [sumCounts]
      have hl : dlookup ((k, c) :: rest) k = some c := by
        simp [dlookup]
      rw [hs, h0, hl]
      rfl
    · have hs : sumCounts ((k, c) :: rest) e = sumCounts rest e := by
        simp [sumCounts, hke]
      have hl : dlookup ((k, c) :: rest) e = dlookup rest e := by
        simp [dlookup, hke]
      rw [hs, hl, ih h'.2]

/-! ## Lemmas about `pyMax` (Python `max` on a list of naturals) -/

theorem le_foldl_max (l : List Nat) : ∀ a, a ≤ l.foldl Nat.max a := by
  induction l with
  | nil => intro a; exact Nat.le_refl a
  | cons x xs ih =>
    intro a
    exact Nat.le_trans (Nat.le_max_left a x) (ih (Nat.max a x))

theorem mem_le_foldl_max (l : List Nat) : ∀ a m, m ∈ l → m ≤ l.foldl Nat.max a := by
  induction l with
  | nil => intro a m h; cases h
  | cons x xs ih =>
    intro a m h
    rcases List.mem_cons.1 h with h | h
    · subst h
      exact Nat.le_trans (Nat.le_max_right a m) (le_foldl_max xs (Nat.max a m))
    · exact ih (Nat.max a x) m h

theorem foldl_max_le (l : List Nat) : ∀ a n, a ≤ n → (∀ m ∈ l, m ≤ n) →
    l.foldl Nat.max a ≤ n := by
  induction l with
  | nil => intro a n h _; exact h
  | cons x xs ih =>
    intro a n h hall
    exact ih _ n (Nat.max_le.2 ⟨h, hall x (List.mem_cons_self x xs)⟩)
      (fun m hm => hall m (List.mem_cons_of_mem x hm))

theorem foldl_max_mem_or (l : List Nat) : ∀ a, l.foldl Nat.max a = a ∨ l.foldl Nat.max a ∈ l := by
  induction l with
  | nil => intro a; exact Or.inl rfl
  | cons x xs ih =>
    intro a
    have hchoice : Nat.max a x = a ∨ Nat.max a x = x := by
      rcases Nat.le_total a x with h | h
      · right; exact Nat.max_eq_right h
      · left; exact Nat.max_eq_left h
    rcases ih (Nat.max a x) with h | h
    · rcases hchoice with hm | hm
      · left; rw [List.foldl_cons, h, hm]
      · right; rw [List.foldl_cons, h, hm]; exact List.mem_cons_self x xs
    · right; exact List.mem_cons_of_mem x h

theorem pyMax_mem (l : List Nat) (h : l ≠ []) : pyMax l ∈ l := by
  cases l with
  | nil => exact absurd rfl h
  | cons x xs =>
    have h0x : Nat.max 0 x = x := Nat.max_eq_right (Nat.zero_le x)
    have hseed : pyMax (x :: xs) = xs.foldl Nat.max x := by
      unfold pyMax
      rw [List.foldl_cons, h0x]
    rw [hseed]
    rcases foldl_max_mem_or xs x with h1 | h1
    · rw [h1]; exact List.mem_cons_self _ _
    · exact List.mem_cons_of_mem x h1

theorem mem_le_pyMax (l : List Nat) (m : Nat) (h : m ∈ l) : m ≤ pyMax l :=
  mem_le_foldl_max l 0 m h

theorem pyMax_le (l : List Nat) (n : Nat) (h : ∀ m ∈ l, m ≤ n) : pyMax l ≤ n :=
  foldl_max_le l 0 n (Nat.zero_le n) h

theorem pyMax_append_singleton (l : List Nat) (n : Nat) (h : ∀ m ∈ l, m ≤ n) :
    pyMax (l ++ [n]) = n := by
  unfold pyMax
  rw [List.foldl_append]
  exact Nat.max_eq_right (foldl_max_le l 0 n (Nat.zero_le n) h)

theorem pyMax_eq_of_mem_of_le (l : List Nat) (n : Nat) (hm : n ∈ l)
    (h : ∀ m ∈ l, m ≤ n) : pyMax l = n :=
  Nat.le_antisymm (pyMax_le l n h) (mem_le_pyMax l n hm)

/-! ## Lemma about `reset_from_step`'s key deletion -/

theorem dlookup_filter_stepOf {ν : Type} (d : AssocD StepKey ν) (n : Nat) (k : StepKey) :
    dlookup (d.filter (fun kv => stepOf kv.1 < n)) k =
      if stepOf k < n then dlookup d k else none := by
  induction d with
  | nil => simp [dlookup]
  | cons kv rest ih =>
    obtain ⟨k0, v0⟩ := kv
    by_cases hp : stepOf k0 < n
    · by_cases hk : k0 = k
      · subst hk
        simp [List.filter_cons, hp, dlookup]
      · simp [List.filter_cons, hp, dlookup, hk, ih]
    · by_cases hk : k0 = k
      · subst hk
        simp [List.filter_cons, hp, dlookup, ih]
      · simp [List.filter_cons, hp, dlookup, hk, ih]

/-! ## Further characterization lemmas -/

theorem dlookup_eq_some_getD (d : AssocD String Nat) (k : String) (h : k ∈ dkeys d) :
    dlookup d k = some ((dlookup d k).getD 0) := by
  have hs := (mem_dkeys_iff_isSome d k).1 h
  cases ho : dlookup d k with
  | none => rw [ho] at hs; cases hs
  | some v => simp

theorem dlookup_char (d : AssocD String Nat) (k : String) :
    dlookup d k = if k ∈ dkeys d then some ((dlookup d k).getD 0) else none := by
  by_cases hm : k ∈ dkeys d
  · rw [if_pos hm]; exact dlookup_eq_some_getD d k hm
  · rw [if_neg hm]; exact dlookup_eq_none_of_not_mem d k hm

theorem chunksGo_nil (k fuel : Nat) : chunksGo k fuel ([] : List String) = [] := by
  cases fuel <;> rfl

theorem chunksGo_all (l : List String) (k : Nat) (hk : l.length < k) (hne : l ≠ []) :
    chunksGo k l.length l = [l] := by
  cases l with
  | nil => exact absurd rfl hne
  | cons x xs =>
    show chunksGo k (xs.length + 1) (x :: xs) = [x :: xs]
    unfold chunksGo
    rw [List.take_of_length_le (Nat.le_of_lt hk), List.drop_eq_nil_of_le (Nat.le_of_lt hk),
      chunksGo_nil]

theorem map_sumCounts_congr (ts : List Tally) (e : String)
    (h : ∀ ed ∈ ts, keysNodup ed) :
    (ts.map (fun ed => sumCounts ed e)).sum = tallySum ts e := by
  induction ts with
  | nil => rfl
  | cons ed rest ih =>
    simp only [List.map_cons, List.sum_cons, tallySum]
    rw [sumCounts_eq_getD ed e (h ed (List.mem_cons_self ed rest))]
    have := ih (fun ed' h' => h ed' (List.mem_cons_of_mem ed h'))
    simpa [tallySum] using this

theorem dlookup_aggregate_go (ts : List Tally) : ∀ (g : Tally) (e : String),
    dlookup (aggregate_editors_go g ts) e =
      if ∃ ed ∈ ts, e ∈ dkeys ed then
        some ((dlookup g e).getD 0 + (ts.map (fun ed => sumCounts ed e)).sum)
      else dlookup g e := by
  induction ts with
  | nil => intro g e; simp [aggregate_editors_go]
  | cons ed rest ih =>
    intro g e
    show dlookup (aggregate_editors_go (mergeCounts g ed) rest) e = _
    rw [ih]
    by_cases hrest : ∃ ed' ∈ rest, e ∈ dkeys ed'
    · rw [if_pos hrest, if_pos (by
        obtain ⟨ed', hmem, hk⟩ := hrest
        exact ⟨ed', List.mem_cons_of_mem ed hmem, hk⟩)]
      rw [getD_mergeCounts]
      simp only [List.map_cons, List.sum_cons, Option.some.injEq]
      omega
    · by_cases hed : e ∈ dkeys ed
      · rw [if_neg hrest, if_pos ⟨ed, List.mem_cons_self ed rest, hed⟩,
          dlookup_mergeCounts, if_pos hed]
        have hz : (rest.map (fun ed' => sumCounts ed' e)).sum = 0 := by
          apply List.sum_eq_zero
          intro x hx
          obtain ⟨ed', hmem, hval⟩ := List.mem_map.1 hx
          rw [← hval]
          exact sumCounts_eq_zero_of_not_mem ed' e (fun hk => hrest ⟨ed', hmem, hk⟩)
        simp [hz]
      · have hnone : ¬∃ ed' ∈ ed :: rest, e ∈ dkeys ed' := by
          rintro ⟨ed', hmem, hk⟩
          rcases List.mem_cons.1 hmem with h | h
          · exact hed (h ▸ hk)
          · exact hrest ⟨ed', h, hk⟩
        rw [if_neg hrest, if_neg hnone, dlookup_mergeCounts, if_neg hed]

/-! ## Lemmas about the connection retry loop -/

theorem sum_Icc_two_pow (k : Nat) : (∑ i in Finset.Icc 1 k, 2 ^ i) = 2 ^ (k + 1) - 2 := by
  induction k with
  | zero =>
    rw [Finset.Icc_eq_empty (by omega)]
    rfl
  | succ n ih =>
    rw [Finset.sum_Icc_succ_top (by omega : 1 ≤ n + 1), ih]
    have h1 : 2 ≤ 2 ^ (n + 1) := by
      calc 2 = 2 ^ 1 := rfl
      _ ≤ 2 ^ (n + 1) := Nat.pow_le_pow_right (by omega) (by omega)
    have h2 : 2 ^ (n + 2) = 2 * 2 ^ (n + 1) := by ring
    omega

theorem connectGo_spec (outcome : Nat → AttemptResult) (k : Nat) (hk : k < MAX_RETRIES)
    (hfail : ∀ i, 1 ≤ i → i ≤ k → outcome i = .operationalError)
    (hsucc : outcome (k + 1) = .success) :
    ∀ remaining attempt slept, attempt + remaining = MAX_RETRIES + 1 →
      1 ≤ attempt → attempt ≤ k + 1 →
      connectGo outcome remaining attempt slept =
        .ok (slept + (2 ^ (k + 1) - 2 ^ attempt)) := by
  intro remaining
  induction remaining with
  | zero =>
    intro attempt slept htot h1 h2
    exfalso
    unfold MAX_RETRIES at hk htot
    omega
  | succ rem ih =>
    intro attempt slept htot h1 h2
    by_cases heq : attempt = k + 1
    · subst heq
      have hstep : connectGo outcome (rem + 1) (k + 1) slept = .ok slept := by
        simp only [connectGo, hsucc]
      rw [hstep, Nat.sub_self, Nat.add_zero]
    · have hle : attempt ≤ k := by omega
      have hlt : attempt < MAX_RETRIES := by omega
      have hstep : connectGo outcome (rem + 1) attempt slept =
          connectGo outcome rem (attempt + 1) (slept + 2 ^ attempt) := by
        simp only [connectGo, hfail attempt h1 hle]
        rw [if_pos hlt]
      rw [hstep, ih (attempt + 1) (slept + 2 ^ attempt) (by omega) (by omega) (by omega)]
      have hp1 : 2 ^ (attempt + 1) = 2 * 2 ^ attempt := by ring
      have hp2 : 2 ^ (attempt + 1) ≤ 2 ^ (k + 1) := Nat.pow_le_pow_right (by omega) (by omega)
      congr 1
      omega

/-! ## Claim theorems -/

/-- Shared helper: any tally an `process_language` call returns contains
no key that the IP or bot filter excludes. -/
theorem process_language_ok_excluded (lang : String) (titles : List String) (year : String)
    (batch_size : Nat) (openConn : Except PyErr Unit)
    (db : List String → Except PyErr (List Row)) (dbArEn : Except PyErr (List Row))
    (t : Tally) (name : String)
    (hok : process_language lang titles year batch_size openConn db dbArEn = .ok t)
    (hex : is_ip_address name || containsBot name) :
    dlookup t name = none := by
  unfold process_language at hok
  by_cases hl : lang = "ar" ∨ lang = "en"
  · rw [if_pos hl] at hok
    simp [process_language_ar_en, databaseAnalyticsCall] at hok
  · rw [if_neg hl] at hok
    unfold process_language_patch at hok
    cases openConn with
    | error e => cases hok
    | ok u =>
      cases hbt : batch_titles titles batch_size with
      | error e => rw [hbt] at hok; cases hok
      | ok batches =>
        rw [hbt] at hok
        rw [processBatches_ok_excluded db batches [] t name hok hex]
        rfl

/-- C1 (amended).  Whenever `process_language_patch` returns a tally,
that tally is the per-row fold — with plain overwriting assignment
`editors[actor_name] = count` — of the concatenation of the per-batch
result rows, and it therefore also equals the tally of a single
unbatched call whose one query returns exactly those rows.  The running
batch "merge" is last-write-wins per editor, not additive. -/
theorem process_language_patch_unbatched_eq (lang : String) (titles : List String)
    (year : String) (batch_size : Nat) (openConn : Except PyErr Unit)
    (db : List String → Except PyErr (List Row)) (t : Tally)
    (hok : process_language_patch lang titles year batch_size openConn db = .ok t) :
    ∃ rows, gatherRows db (chunksGo batch_size titles.length titles) = .ok rows ∧
      t = processRows rows [] ∧
      process_language_patch lang titles year (titles.length + 1) (.ok ())
        (fun _ => .ok rows) = .ok t := by
  unfold process_language_patch at hok
  cases openConn with
  | error e => cases hok
  | ok u =>
    unfold batch_titles at hok
    by_cases hbs : batch_size = 0
    · rw [if_pos hbs] at hok; cases hok
    · rw [if_neg hbs] at hok
      obtain ⟨rows, hg, ht⟩ := processBatches_ok_gather db _ [] t hok
      refine ⟨rows, hg, ht, ?_⟩
      have hne : ¬(titles.length + 1 = 0) := by omega
      simp only [process_language_patch, batch_titles, if_neg hne]
      cases htl : titles with
      | nil =>
        subst htl
        rw [chunksGo_nil] at hg
        simp only [gatherRows, Except.ok.injEq] at hg
        subst hg
        simp [chunksGo_nil, processBatches, processRows, ht]
      | cons x xs =>
        subst htl
        rw [chunksGo_all (x :: xs) ((x :: xs).length + 1) (by omega) (by simp)]
        simp [processBatches, ht]

/-- C1 counterexample.  With batch size 1 over two titles, the same
editor reported in both batches (counts 5 then 3) ends with count 3 in
the returned tally — last write wins — while the additive merge of the
two per-batch tallies would give 8.  The claim's "merged additively"
is false of `process_language_patch`. -/
theorem process_language_patch_not_additive :
    (process_language_patch "fr" ["T1", "T2"] "2024" 1 (.ok ())
        (fun b => if b = ["T1"] then .ok [⟨"Alice", 5⟩] else .ok [⟨"Alice", 3⟩]) =
      .ok [("Alice", 3)]) ∧
    mergeCounts (mergeCounts [] (processRows [⟨"Alice", 5⟩] []))
        (processRows [⟨"Alice", 3⟩] []) = [("Alice", 8)] ∧
    dlookup [("Alice", 3)] "Alice" ≠ dlookup [("Alice", 8)] "Alice" := by
  refine ⟨rfl, rfl, ?_⟩
  decide

/-- C1 witness: the amended theorem applied to the two-batch run above. -/
theorem process_language_patch_unbatched_eq_witness :
    ∃ rows,
      gatherRows (fun b => if b = ["T1"] then Except.ok [⟨"Alice", 5⟩] else .ok [⟨"Alice", 3⟩])
        (chunksGo 1 (["T1", "T2"] : List String).length ["T1", "T2"]) = .ok rows ∧
      ([("Alice", 3)] : Tally) = processRows rows [] ∧
      process_language_patch "fr" ["T1", "T2"] "2024" ((["T1", "T2"] : List String).length + 1)
        (.ok ()) (fun _ => .ok rows) = .ok [("Alice", 3)] :=
  process_language_patch_unbatched_eq "fr" ["T1", "T2"] "2024" 1 (.ok ())
    (fun b => if b = ["T1"] then .ok [⟨"Alice", 5⟩] else .ok [⟨"Alice", 3⟩])
    [("Alice", 3)] rfl

/-- C2 (amended).  Any actor name matched by the source's
`is_ip_address` patterns — every 1-to-3-digit dotted-quad IPv4 literal,
and the full uncompressed 8-group IPv6 form — never appears as a key of
a tally returned by `process_language`, under either strategy and for
every language, title list, year and batch size. -/
theorem process_language_excludes_filtered_ips (lang : String) (titles : List String)
    (year : String) (batch_size : Nat) (openConn : Except PyErr Unit)
    (db : List String → Except PyErr (List Row)) (dbArEn : Except PyErr (List Row))
    (t : Tally) (name : String)
    (hok : process_language lang titles year batch_size openConn db dbArEn = .ok t)
    (hip : is_ip_address name = true) :
    dlookup t name = none :=
  process_language_ok_excluded lang titles year batch_size openConn db dbArEn t name hok
    (by simp [hip])

/-- C2 counterexample.  `"::1"` is a valid textual IPv6 literal (the
compressed loopback form), yet the source's simplified IPv6 pattern
requires all eight groups, so `is_ip_address "::1"` is `false` and a
row reporting `"::1"` lands in the returned tally with its count —
refuting the claim for "any valid textual IP form". -/
theorem process_language_admits_compressed_ipv6 :
    process_language "fr" ["T"] "2024" 1 (.ok ())
      (fun _ => .ok [⟨"::1", 5⟩]) (.ok []) = .ok [("::1", 5)] ∧
    dlookup [("::1", 5)] "::1" = some 5 ∧
    is_ip_address "::1" = false := ⟨rfl, rfl, by decide⟩

/-- C2 witness: a run whose result rows contain a dotted-quad IP. -/
theorem process_language_excludes_filtered_ips_witness :
    process_language "fr" ["T"] "2024" 1 (.ok ())
      (fun _ => .ok [⟨"1.2.3.4", 7⟩, ⟨"Alice", 2⟩]) (.ok []) = .ok [("Alice", 2)] ∧
    dlookup [("Alice", 2)] "1.2.3.4" = none := by
  refine ⟨rfl, ?_⟩
  exact process_language_excludes_filtered_ips "fr" ["T"] "2024" 1 (.ok ())
    (fun _ => .ok [⟨"1.2.3.4", 7⟩, ⟨"Alice", 2⟩]) (.ok []) [("Alice", 2)] "1.2.3.4" rfl rfl

/-- C9 (confirmed).  Any actor name containing the substring `"bot"` in
any letter case (some contiguous three characters lowercasing to
`b`,`o`,`t`) never appears as a key of a tally returned by
`process_language`, under either strategy and for every language,
title list, year and batch size. -/
theorem process_language_excludes_bot_names (lang : String) (titles : List String)
    (year : String) (batch_size : Nat) (openConn : Except PyErr Unit)
    (db : List String → Except PyErr (List Row)) (dbArEn : Except PyErr (List Row))
    (t : Tally) (name : String) (pre mid post : List Char)
    (hok : process_language lang titles year batch_size openConn db dbArEn = .ok t)
    (hsplit : name.data = pre ++ mid ++ post)
    (hmid : mid.map Char.toLower = ['b', 'o', 't']) :
    dlookup t name = none := by
  apply process_language_ok_excluded lang titles year batch_size openConn db dbArEn t name hok
  have hbot : containsBot name = true := by
    unfold containsBot lowerData
    rw [hasSubstr_iff]
    refine ⟨pre.map Char.toLower, post.map Char.toLower, ?_⟩
    rw [hsplit]
    simp [hmid]
  simp [hbot]

/-- C9 witness: a run whose result rows contain a mixed-case bot name. -/
theorem process_language_excludes_bot_names_witness :
    process_language "fr" ["T"] "2024" 1 (.ok ())
      (fun _ => .ok [⟨"WikiBOT X", 9⟩, ⟨"Alice", 2⟩]) (.ok []) = .ok [("Alice", 2)] ∧
    dlookup [("Alice", 2)] "WikiBOT X" = none := by
  refine ⟨rfl, ?_⟩
  exact process_language_excludes_bot_names "fr" ["T"] "2024" 1 (.ok ())
    (fun _ => .ok [⟨"WikiBOT X", 9⟩, ⟨"Alice", 2⟩]) (.ok []) [("Alice", 2)] "WikiBOT X"
    "Wiki".data "BOT".data " X".data rfl (by decide) (by decide)

/-- Lookup-level commutativity of the binary additive merge. -/
theorem mergeCounts_comm_lookup (A B : Tally) (e : String)
    (hA : keysNodup A) (hB : keysNodup B) :
    dlookup (mergeCounts A B) e = dlookup (mergeCounts B A) e := by
  rw [dlookup_char (mergeCounts A B) e, dlookup_char (mergeCounts B A) e,
    getD_mergeCounts, getD_mergeCounts, sumCounts_eq_getD B e hB, sumCounts_eq_getD A e hA]
  have hm1 := mem_dkeys_mergeCounts A B e
  have hm2 := mem_dkeys_mergeCounts B A e
  by_cases h : e ∈ dkeys A ∨ e ∈ dkeys B
  · rw [if_pos (hm1.2 h), if_pos (hm2.2 (Or.symm h))]
    congr 1
    omega
  · rw [if_neg (fun hx => h (hm1.1 hx)), if_neg (fun hx => h (Or.symm (hm2.1 hx)))]

/-- Lookup-level associativity of the binary additive merge. -/
theorem mergeCounts_assoc_lookup (A B C : Tally) (e : String)
    (hB : keysNodup B) (hC : keysNodup C) :
    dlookup (mergeCounts (mergeCounts A B) C) e =
      dlookup (mergeCounts A (mergeCounts B C)) e := by
  rw [dlookup_char (mergeCounts (mergeCounts A B) C) e,
    dlookup_char (mergeCounts A (mergeCounts B C)) e]
  have hv1 : (dlookup (mergeCounts (mergeCounts A B) C) e).getD 0 =
      (dlookup A e).getD 0 + (dlookup B e).getD 0 + (dlookup C e).getD 0 := by
    rw [getD_mergeCounts, getD_mergeCounts, sumCounts_eq_getD B e hB, sumCounts_eq_getD C e hC]
  have hv2 : (dlookup (mergeCounts A (mergeCounts B C)) e).getD 0 =
      (dlookup A e).getD 0 + ((dlookup B e).getD 0 + (dlookup C e).getD 0) := by
    rw [getD_mergeCounts, sumCounts_eq_getD (mergeCounts B C) e (keysNodup_mergeCounts B C hB),
      getD_mergeCounts, sumCounts_eq_getD C e hC]
  rw [hv1, hv2]
  have hm1 : e ∈ dkeys (mergeCounts (mergeCounts A B) C) ↔
      (e ∈ dkeys A ∨ e ∈ dkeys B) ∨ e ∈ dkeys C := by
    rw [mem_dkeys_mergeCounts, mem_dkeys_mergeCounts]
  have hm2 : e ∈ dkeys (mergeCounts A (mergeCounts B C)) ↔
      e ∈ dkeys A ∨ (e ∈ dkeys B ∨ e ∈ dkeys C) := by
    rw [mem_dkeys_mergeCounts, mem_dkeys_mergeCounts]
  by_cases h : (e ∈ dkeys A ∨ e ∈ dkeys B) ∨ e ∈ dkeys C
  · rw [if_pos (hm1.2 h), if_pos (hm2.2 (by tauto))]
    congr 1
    omega
  · rw [if_neg (fun hx => h (hm1.1 hx)),
      if_neg (fun hx => h (by have := hm2.1 hx; tauto))]

/-- C3 (confirmed).  `aggregate_editors` maps every editor appearing in
some input tally to the sum of that editor's counts over all input
tallies (absent tallies contributing 0) and omits every other editor;
and the underlying binary merge is commutative and associative at the
level of lookup (Python `dict` equality ignores order). -/
theorem aggregate_editors_spec (ts : List Tally) (A B C : Tally) (e : String)
    (hts : ∀ ed ∈ ts, keysNodup ed) (hA : keysNodup A) (hB : keysNodup B) (hC : keysNodup C) :
    (dlookup (aggregate_editors ts) e =
      if ∃ ed ∈ ts, e ∈ dkeys ed then some (tallySum ts e) else none) ∧
    dlookup (mergeCounts A B) e = dlookup (mergeCounts B A) e ∧
    dlookup (mergeCounts (mergeCounts A B) C) e =
      dlookup (mergeCounts A (mergeCounts B C)) e := by
  refine ⟨?_, mergeCounts_comm_lookup A B e hA hB, mergeCounts_assoc_lookup A B C e hB hC⟩
  unfold aggregate_editors
  rw [dlookup_aggregate_go]
  by_cases h : ∃ ed ∈ ts, e ∈ dkeys ed
  · rw [if_pos h, if_pos h, map_sumCounts_congr ts e hts]
    simp [dlookup]
  · rw [if_neg h, if_neg h]
    rfl

/-- C3 witness: the doc-example tallies of `aggregate_editors`. -/
theorem aggregate_editors_spec_witness :
    (dlookup (aggregate_editors [[("Editor1", 100), ("Editor2", 50)], [("Editor1", 25), ("Editor3", 75)]])
        "Editor1" =
      if ∃ ed ∈ [[("Editor1", 100), ("Editor2", 50)], [("Editor1", 25), ("Editor3", 75)]],
          "Editor1" ∈ dkeys ed then
        some (tallySum [[("Editor1", 100), ("Editor2", 50)], [("Editor1", 25), ("Editor3", 75)]]
          "Editor1")
      else none) ∧
    dlookup (mergeCounts [("Editor1", 100)] [("Editor1", 25), ("Editor3", 75)]) "Editor1" =
      dlookup (mergeCounts [("Editor1", 25), ("Editor3", 75)] [("Editor1", 100)]) "Editor1" ∧
    dlookup (mergeCounts (mergeCounts [("Editor1", 100)] [("Editor1", 25), ("Editor3", 75)])
        [("Editor2", 1)]) "Editor1" =
      dlookup (mergeCounts [("Editor1", 100)]
        (mergeCounts [("Editor1", 25), ("Editor3", 75)] [("Editor2", 1)])) "Editor1" :=
  aggregate_editors_spec
    [[("Editor1", 100), ("Editor2", 50)], [("Editor1", 25), ("Editor3", 75)]]
    [("Editor1", 100)] [("Editor1", 25), ("Editor3", 75)] [("Editor2", 1)] "Editor1"
    (by decide) (by decide) (by decide) (by decide)

/-- C4 (amended).  For *every* workflow state, immediately after
`mark_step_completed(n, data)` the state satisfies
`current_step == n + 1` (the source sets `current_step = step + 1`
unconditionally) and `n ∈ completed_steps`; the claimed
`current_step == max(completed_steps) + 1` holds precisely when `n`
is at least every previously completed step (in particular whenever
steps complete in ascending order), and fails for out-of-order
completion — see the counterexample. -/
theorem mark_step_completed_current_step (s : WfState) (n : Nat) (d : PData) :
    (markStepCompleted n d s).currentStep = n + 1 ∧
    n ∈ (markStepCompleted n d s).completedSteps ∧
    ((∀ m ∈ s.completedSteps, m ≤ n) →
      pyMax (markStepCompleted n d s).completedSteps = n ∧
      (markStepCompleted n d s).currentStep =
        pyMax (markStepCompleted n d s).completedSteps + 1) ∧
    ((markStepCompleted n d s).currentStep =
        pyMax (markStepCompleted n d s).completedSteps + 1 ↔
      pyMax (markStepCompleted n d s).completedSteps = n) := by
  have hmem : n ∈ (markStepCompleted n d s).completedSteps := by
    unfold markStepCompleted
    by_cases hm : n ∈ s.completedSteps
    · simp [hm]
    · simp [hm]
  refine ⟨rfl, hmem, ?_, ?_⟩
  · intro h
    have hmax : pyMax (markStepCompleted n d s).completedSteps = n := by
      unfold markStepCompleted
      by_cases hm : n ∈ s.completedSteps
      · simp only [if_pos hm]
        exact pyMax_eq_of_mem_of_le _ n hm h
      · simp only [if_neg hm]
        exact pyMax_append_singleton _ n h
    exact ⟨hmax, by rw [hmax]; rfl⟩
  · constructor
    · intro h
      have hcur : (markStepCompleted n d s).currentStep = n + 1 := rfl
      omega
    · intro h
      rw [h]
      rfl

/-- C4 counterexample.  From the reachable state where only step 3 is
completed, `mark_step_completed(1)` leaves `current_step = 2` while
`max(completed_steps) + 1 = 4`: the claimed invariant fails for
out-of-order completion, because the source sets
`current_step = step + 1`, not `max(completed_steps) + 1`. -/
theorem mark_step_completed_out_of_order :
    Reachable (markStepCompleted 3 none emptyState) ∧
    (markStepCompleted 1 none (markStepCompleted 3 none emptyState)).currentStep = 2 ∧
    pyMax (markStepCompleted 1 none (markStepCompleted 3 none emptyState)).completedSteps = 3 ∧
    (markStepCompleted 1 none (markStepCompleted 3 none emptyState)).currentStep ≠
      pyMax (markStepCompleted 1 none (markStepCompleted 3 none emptyState)).completedSteps + 1 :=
  ⟨Reachable.completed 3 none Reachable.empty, by decide, by decide, by decide⟩

/-- C4 witness: the unconditional `n + 1` clause at both an ascending
and an out-of-order completion, and the max clause discharged at the
ascending one. -/
theorem mark_step_completed_current_step_witness :
    (markStepCompleted 2 none (markStepCompleted 1 none emptyState)).currentStep = 2 + 1 ∧
    pyMax (markStepCompleted 2 none (markStepCompleted 1 none emptyState)).completedSteps = 2 ∧
    (markStepCompleted 2 none (markStepCompleted 1 none emptyState)).currentStep =
      pyMax (markStepCompleted 2 none (markStepCompleted 1 none emptyState)).completedSteps + 1 ∧
    (markStepCompleted 1 none (markStepCompleted 3 none emptyState)).currentStep = 1 + 1 :=
  ⟨(mark_step_completed_current_step (markStepCompleted 1 none emptyState) 2 none).1,
    ((mark_step_completed_current_step (markStepCompleted 1 none emptyState) 2 none).2.2.1
      (by decide)).1,
    ((mark_step_completed_current_step (markStepCompleted 1 none emptyState) 2 none).2.2.1
      (by decide)).2,
    (mark_step_completed_current_step (markStepCompleted 3 none emptyState) 1 none).1⟩

/-- C5 (confirmed).  `get_resume_point` returns `1` when nothing is
completed, and `max(completed_steps) + 1` otherwise (the returned value
minus one is a completed step and bounds every completed step); on the
state with steps 1 and 2 completed it returns `3`. -/
theorem get_resume_point_spec (s : WfState) :
    (s.completedSteps = [] → get_resume_point s = 1) ∧
    (s.completedSteps ≠ [] →
      get_resume_point s = pyMax s.completedSteps + 1 ∧
      get_resume_point s - 1 ∈ s.completedSteps ∧
      ∀ m ∈ s.completedSteps, m ≤ get_resume_point s - 1) ∧
    get_resume_point (markStepCompleted 2 none (markStepCompleted 1 none emptyState)) = 3 ∧
    get_resume_point emptyState = 1 := by
  refine ⟨?_, ?_, by decide, by decide⟩
  · intro h
    simp [get_resume_point, h]
  · intro h
    have hne : ¬s.completedSteps.isEmpty := by
      cases hcs : s.completedSteps with
      | nil => exact absurd hcs h
      | cons a l => simp
    have hrp : get_resume_point s = pyMax s.completedSteps + 1 := by
      simp [get_resume_point, hne]
    refine ⟨hrp, ?_, ?_⟩
    · rw [hrp]
      simpa using pyMax_mem s.completedSteps h
    · intro m hm
      rw [hrp]
      simpa using mem_le_pyMax s.completedSteps m hm

/-- C5 witness: the spec's two resume scenarios. -/
theorem get_resume_point_spec_witness :
    get_resume_point (markStepCompleted 2 none (markStepCompleted 1 none emptyState)) =
      pyMax (markStepCompleted 2 none (markStepCompleted 1 none emptyState)).completedSteps + 1 ∧
    get_resume_point emptyState = 1 := by
  have h1 := get_resume_point_spec (markStepCompleted 2 none (markStepCompleted 1 none emptyState))
  have h2 := get_resume_point_spec emptyState
  exact ⟨(h1.2.1 (by decide)).1, h2.1 rfl⟩

/-- C6 (code bug).  `process_language_ar_en` calls
`DatabaseAnalytics(lang, timeout=3_000)`, but `DatabaseAnalytics.__init__`
accepts no `timeout` keyword, so every call raises `TypeError` at the
constructor — query execution is never reached, for every language,
year, connection outcome and query result. -/
theorem process_language_ar_en_type_error (lang year : String)
    (openConn : Except PyErr Unit) (dbArEn : Except PyErr (List Row)) :
    process_language_ar_en lang year openConn dbArEn = .error .typeError := rfl

/-- C7 (confirmed).  With a readable, well-formed credential file, if
the first `k < MAX_RETRIES` connection attempts fail with
`OperationalError` and attempt `k+1` succeeds, `_connect` returns
normally having slept exactly `sum(2^i for i in 1..k)` seconds. -/
theorem connect_retry_backoff (file : Option (List (List Char)))
    (creds : List Char × List Char) (k : Nat) (outcome : Nat → AttemptResult)
    (hcred : load_credentials file = .ok creds)
    (hk : k < MAX_RETRIES)
    (hfail : ∀ i, 1 ≤ i → i ≤ k → outcome i = .operationalError)
    (hsucc : outcome (k + 1) = .success) :
    db_connect file outcome = .ok (∑ i in Finset.Icc 1 k, 2 ^ i) := by
  simp only [db_connect, hcred]
  rw [connectGo_spec outcome k hk hfail hsucc MAX_RETRIES 1 0 (by omega) (le_refl 1) (by omega),
    sum_Icc_two_pow]
  congr 1
  have h21 : (2 : Nat) ^ 1 = 2 := rfl
  omega

/-- C7 witness: two transient failures, then success, with a valid
two-line credential file; the total sleep is `2^1 + 2^2 = 6` seconds. -/
theorem connect_retry_backoff_witness :
    db_connect (some ["user = u".data, "password = p".data])
      (fun i => if i ≤ 2 then AttemptResult.operationalError else .success) =
      .ok (∑ i in Finset.Icc 1 2, 2 ^ i) ∧
    (∑ i in Finset.Icc 1 2, 2 ^ i) = 6 := by
  refine ⟨?_, by decide⟩
  exact connect_retry_backoff (some ["user = u".data, "password = p".data])
    ("u".data, "p".data) 2
    (fun i => if i ≤ 2 then AttemptResult.operationalError else .success)
    rfl (by decide)
    (fun i h1 h2 => by simp [h2])
    rfl

/-- C8 (confirmed).  `reset_from_step(n)` keeps exactly the completed
steps `< n`, keeps whole-step and partial `step_data` entries exactly
for steps `< n` and removes the rest; on the state with steps 1, 2, 3
completed, `reset_from_step(2)` leaves `completed_steps = [1]` and no
step-2 data. -/
theorem reset_from_step_spec (s : WfState) (n m : Nat) :
    (m ∈ (resetFromStep n s).completedSteps ↔ m ∈ s.completedSteps ∧ m < n) ∧
    dlookup (resetFromStep n s).stepData (StepKey.whole m) =
      (if m < n then dlookup s.stepData (StepKey.whole m) else none) ∧
    dlookup (resetFromStep n s).stepData (StepKey.part m) =
      (if m < n then dlookup s.stepData (StepKey.part m) else none) ∧
    (resetFromStep 2 (markStepCompleted 3 none (markStepCompleted 2 none
      (markStepCompleted 1 none emptyState)))).completedSteps = [1] ∧
    dlookup (resetFromStep 2 (markStepCompleted 3 none (markStepCompleted 2 none
      (markStepCompleted 1 none emptyState)))).stepData (StepKey.whole 2) = none := by
  refine ⟨?_, ?_, ?_, by decide, by decide⟩
  · simp [resetFromStep, List.mem_filter]
  · simpa [resetFromStep, stepOf] using dlookup_filter_stepOf s.stepData n (StepKey.whole m)
  · simpa [resetFromStep, stepOf] using dlookup_filter_stepOf s.stepData n (StepKey.part m)

/-- C8 witness: the spec's reset scenario, read off the theorem. -/
theorem reset_from_step_spec_witness :
    (resetFromStep 2 (markStepCompleted 3 none (markStepCompleted 2 none
      (markStepCompleted 1 none emptyState)))).completedSteps = [1] ∧
    dlookup (resetFromStep 2 (markStepCompleted 3 none (markStepCompleted 2 none
      (markStepCompleted 1 none emptyState)))).stepData (StepKey.whole 2) = none :=
  ⟨(reset_from_step_spec emptyState 2 0).2.2.2.1, (reset_from_step_spec emptyState 2 0).2.2.2.2⟩

/-- C10 (amended).  `generate_language_report` never returns normally.
Its first operation is the subscript `OUTPUT_DIRS["reports"]`
(reports.py:113), a `KeyError` for a config without that key; next
comes `OUTPUT_DIRS["titles"]` (line 121) — absent from the shipped
config, so with it every call raises `KeyError` there, before the
titles file is ever read.  Only under a config carrying both keys, and
a titles file that loads, is `sorted_editors.items()` (line 128)
reached, where `sorted`'s list triggers `AttributeError`.  Either way
the per-language report path never completes, for every language and
every editors mapping including the empty one. -/
theorem generate_language_report_never_returns (dirs : AssocD String String)
    (lang : String) (editors : Tally) (year : String)
    (loadTitles : String → Except PyErr (List String)) :
    (dlookup dirs "reports" = none →
      generate_language_report dirs lang editors year loadTitles = .error .keyError) ∧
    (dlookup dirs "reports" ≠ none → dlookup dirs "titles" = none →
      generate_language_report dirs lang editors year loadTitles = .error .keyError) ∧
    (∀ rdir dir titles, dlookup dirs "reports" = some rdir →
      dlookup dirs "titles" = some dir → loadTitles dir = .ok titles →
      generate_language_report dirs lang editors year loadTitles = .error .attributeError) ∧
    generate_language_report OUTPUT_DIRS lang editors year loadTitles = .error .keyError := by
  refine ⟨?_, ?_, ?_, ?_⟩
  · intro h
    simp [generate_language_report, h]
  · intro h1 h2
    cases hr : dlookup dirs "reports" with
    | none => exact absurd hr h1
    | some rdir => simp [generate_language_report, hr, h2]
  · intro rdir dir titles h1 h2 h3
    simp [generate_language_report, h1, h2, h3, pyListItems]
  · have hr : dlookup OUTPUT_DIRS "reports" = some "data/reports" := by decide
    have ht : dlookup OUTPUT_DIRS "titles" = none := by decide
    simp [generate_language_report, hr, ht]

/-- C10 counterexample.  Even with a titles oracle that succeeds for
every directory, the function raises `KeyError` — not the
`AttributeError` from `sorted_editors.items()` that the claim blames,
which is never reached; the same holds for an empty editors mapping. -/
theorem generate_language_report_keyerror_first :
    generate_language_report OUTPUT_DIRS "en" [("Alice", 10)] "2024"
      (fun _ => .ok ["Medicine"]) = .error .keyError ∧
    generate_language_report OUTPUT_DIRS "en" [] "2024"
      (fun _ => .ok ["Medicine"]) = .error .keyError ∧
    PyErr.keyError ≠ PyErr.attributeError := ⟨rfl, rfl, by decide⟩

/-- C10 witness: the amended theorem applied with a config carrying
both keys (the `.items()`-on-list branch), with a config lacking
`"reports"` (the earliest `KeyError`), and with the shipped config. -/
theorem generate_language_report_never_returns_witness :
    generate_language_report [("reports", "data/reports"), ("titles", "data/titles")]
      "en" [] "2024" (fun _ => .ok ["Medicine"]) = .error .attributeError ∧
    generate_language_report [("titles", "data/titles")] "en" [] "2024"
      (fun _ => .ok ["Medicine"]) = .error .keyError ∧
    generate_language_report OUTPUT_DIRS "en" [] "2024"
      (fun _ => .ok ["Medicine"]) = .error .keyError :=
  ⟨(generate_language_report_never_returns
      [("reports", "data/reports"), ("titles", "data/titles")] "en" [] "2024"
      (fun _ => .ok ["Medicine"])).2.2.1 "data/reports" "data/titles" ["Medicine"] rfl rfl rfl,
    (generate_language_report_never_returns [("titles", "data/titles")] "en" [] "2024"
      (fun _ => .ok ["Medicine"])).1 rfl,
    (generate_language_report_never_returns OUTPUT_DIRS "en" [] "2024"
      (fun _ => .ok ["Medicine"])).2.2.2⟩
